import Mathlib

/-!
# Verification of the litellm-plugin-collection pipeline stages

Shallow embedding of the three plugin source files:

* `combine_system_messages_plugin.py` — `CombineSystemMessagesPlugin.async_pre_call_hook`
* `remove_name_plugin.py` — `RemoveNamePlugin.async_pre_call_hook`
* `custom_logger.py` — `PreAPICallLogger.log_pre_api_call`

Request payloads are modelled as JSON-like values with value semantics:
a payload is an association list of string keys to `JVal` values, and a
message is a `JVal.obj`.  Equality between values (Python `==` in
`msg not in system_messages[1:]`) is modelled as structural equality,
which coincides with Python's equality on records in canonical key order.
Python exceptions are modelled with `Except`: each hook body is a function
into `Except Unit Payload`, erroring exactly where the Python body raises,
and the surrounding `try/except` handler is the function that maps the
error case back to the input payload (in the source, every raise site of
each hook body precedes any mutation of `data`, so the handler returning
`data` returns the payload unchanged).
-/

namespace LitellmPlugins

/-- JSON-like values: the shapes a request payload built from the OpenAI
chat format can take (strings, numbers, booleans, null, arrays, objects).
Objects are association lists in insertion order, as Python dicts are. -/
inductive JVal where
  | str  : String → JVal
  | num  : Int → JVal
  | bool : Bool → JVal
  | null : JVal
  | arr  : List JVal → JVal
  | obj  : List (String × JVal) → JVal
deriving Repr

mutual

/-- Boolean structural equality on `JVal` (the automatic derivation does
not handle the nested induction). -/
def beqJVal : JVal → JVal → Bool
  | .str a, .str b => a == b
  | .num a, .num b => a == b
  | .bool a, .bool b => a == b
  | .null, .null => true
  | .arr a, .arr b => beqJValList a b
  | .obj a, .obj b => beqJValObj a b
  | _, _ => false

def beqJValList : List JVal → List JVal → Bool
  | [], [] => true
  | x :: xs, y :: ys => beqJVal x y && beqJValList xs ys
  | _, _ => false

def beqJValObj : List (String × JVal) → List (String × JVal) → Bool
  | [], [] => true
  | (k, v) :: xs, (k', v') :: ys => k == k' && beqJVal v v' && beqJValObj xs ys
  | _, _ => false

end

mutual

theorem beqJVal_iff : ∀ a b : JVal, beqJVal a b = true ↔ a = b
  | .str a, .str b => by simp [beqJVal]
  | .num a, .num b => by simp [beqJVal]
  | .bool a, .bool b => by simp [beqJVal]
  | .null, .null => by simp [beqJVal]
  | .arr a, .arr b => by simp [beqJVal, beqJValList_iff a b]
  | .obj a, .obj b => by simp [beqJVal, beqJValObj_iff a b]
  | .str _, .num _ => by simp [beqJVal]
  | .str _, .bool _ => by simp [beqJVal]
  | .str _, .null => by simp [beqJVal]
  | .str _, .arr _ => by simp [beqJVal]
  | .str _, .obj _ => by simp [beqJVal]
  | .num _, .str _ => by simp [beqJVal]
  | .num _, .bool _ => by simp [beqJVal]
  | .num _, .null => by simp [beqJVal]
  | .num _, .arr _ => by simp [beqJVal]
  | .num _, .obj _ => by simp [beqJVal]
  | .bool _, .str _ => by simp [beqJVal]
  | .bool _, .num _ => by simp [beqJVal]
  | .bool _, .null => by simp [beqJVal]
  | .bool _, .arr _ => by simp [beqJVal]
  | .bool _, .obj _ => by simp [beqJVal]
  | .null, .str _ => by simp [beqJVal]
  | .null, .num _ => by simp [beqJVal]
  | .null, .bool _ => by simp [beqJVal]
  | .null, .arr _ => by simp [beqJVal]
  | .null, .obj _ => by simp [beqJVal]
  | .arr _, .str _ => by simp [beqJVal]
  | .arr _, .num _ => by simp [beqJVal]
  | .arr _, .bool _ => by simp [beqJVal]
  | .arr _, .null => by simp [beqJVal]
  | .arr _, .obj _ => by simp [beqJVal]
  | .obj _, .str _ => by simp [beqJVal]
  | .obj _, .num _ => by simp [beqJVal]
  | .obj _, .bool _ => by simp [beqJVal]
  | .obj _, .null => by simp [beqJVal]
  | .obj _, .arr _ => by simp [beqJVal]

theorem beqJValList_iff : ∀ a b : List JVal, beqJValList a b = true ↔ a = b
  | [], [] => by simp [beqJValList]
  | [], _ :: _ => by simp [beqJValList]
  | _ :: _, [] => by simp [beqJValList]
  | x :: xs, y :: ys => by
      simp [beqJValList, beqJVal_iff x y, beqJValList_iff xs ys]

theorem beqJValObj_iff :
    ∀ a b : List (String × JVal), beqJValObj a b = true ↔ a = b
  | [], [] => by simp [beqJValObj]
  | [], _ :: _ => by simp [beqJValObj]
  | _ :: _, [] => by simp [beqJValObj]
  | (k, v) :: xs, (k', v') :: ys => by
      simp [beqJValObj, beqJVal_iff v v', beqJValObj_iff xs ys, and_assoc]

end

instance : DecidableEq JVal := fun a b => decidable_of_iff _ (beqJVal_iff a b)

/-- A request payload: the `data : dict` argument of the hooks. -/
abbrev Payload := List (String × JVal)

/-- `d.get(k)`: first binding of `k`, or `None`. -/
def dictGet (d : Payload) (k : String) : Option JVal :=
  match d with
  | [] => none
  | (k', v) :: rest => if k' = k then some v else dictGet rest k

/-- `d[k] = v`: replace the binding of `k` in place (Python dicts keep the
key's original position), or append it when the key is absent. -/
def dictSet (d : Payload) (k : String) (v : JVal) : Payload :=
  if d.any (fun p => p.1 = k) then
    d.map (fun p => if p.1 = k then (k, v) else p)
  else
    d ++ [(k, v)]

/-- `d.pop(k, None)`'s effect on the dict: remove the binding of `k`. -/
def dictPop (d : Payload) (k : String) : Payload :=
  d.filter (fun p => p.1 ≠ k)

/-- `"name" in message`. -/
def hasKey (d : Payload) (k : String) : Bool :=
  d.any (fun p => p.1 = k)

/-- `sep.join l`, as Python's `str.join` computes it. -/
def pyJoin (sep : String) : List String → String
  | [] => ""
  | [s] => s
  | s :: rest => s ++ sep ++ pyJoin sep rest

/-! ## CombineSystemMessagesPlugin.async_pre_call_hook -/

/-- Does this list entry have `role == "system"`?  In the source this is the
predicate of the comprehension `msg.get("role") == "system"`; a non-record
entry makes the comprehension raise instead (see `collectSystem`), and a
missing or non-string role compares unequal to `"system"`. -/
def isSystemMsg : JVal → Bool
  | .obj d => decide (dictGet d "role" = some (.str "system"))
  | _ => false

/-- `[msg for msg in messages if msg.get("role") == "system"]`.
Errors when some entry is not a record: `msg.get` raises `AttributeError`
on a non-dict, which the hook's `except` catches. -/
def collectSystem : List JVal → Except Unit (List JVal)
  | [] => .ok []
  | .obj d :: rest =>
      (collectSystem rest).map (fun r =>
        if dictGet d "role" = some (.str "system") then .obj d :: r else r)
  | _ :: _ => .error ()

/-- The contents fed to `"\n".join(msg.get("content", "") for msg in
system_messages)`: a missing `content` contributes `""`; a present
non-string `content` makes `str.join` raise `TypeError`. -/
def getContents : List JVal → Except Unit (List String)
  | [] => .ok []
  | .obj d :: rest =>
      match (dictGet d "content").getD (.str "") with
      | .str s => (getContents rest).map (fun r => s :: r)
      | _ => .error ()
  | _ :: _ => .error ()

/-- `system_messages[0]["content"] = combined_content`: mutate the first
entry of `messages` whose role is `"system"` (that entry is the object
`system_messages[0]` aliases). -/
def setFirstSystemContent (combined : String) : List JVal → List JVal
  | [] => []
  | .obj d :: rest =>
      if dictGet d "role" = some (.str "system") then
        .obj (dictSet d "content" (.str combined)) :: rest
      else
        .obj d :: setFirstSystemContent combined rest
  | x :: rest => x :: setFirstSystemContent combined rest

/-- The body of the `try` block of
`CombineSystemMessagesPlugin.async_pre_call_hook`.  `.error ()` marks the
points where the Python body raises; both raise sites (the role
comprehension and the content join) precede every mutation of `data`. -/
def combineHookCore (data : Payload) : Except Unit Payload :=
  match dictGet data "messages" with
  | some (.arr messages) => do
      let systemMessages ← collectSystem messages
      if systemMessages.length > 1 then do
        let contents ← getContents systemMessages
        let combined := pyJoin "\n" contents
        let messages2 := setFirstSystemContent combined messages
        let newMessages :=
          messages2.filter (fun m => decide (¬ m ∈ systemMessages.tail))
        .ok (dictSet data "messages" (.arr newMessages))
      else
        .ok data
  | _ => .ok data

/-- `CombineSystemMessagesPlugin.async_pre_call_hook`: the `try` body with
its `except` handler, which returns `data` (unchanged, since no raise site
follows a mutation). -/
def combineHook (data : Payload) : Payload :=
  match combineHookCore data with
  | .ok d => d
  | .error _ => data

/-! ## RemoveNamePlugin.async_pre_call_hook -/

/-- The per-message step of the loop in
`RemoveNamePlugin.async_pre_call_hook`:
`if isinstance(message, dict) and "name" in message: message.pop("name", None)`. -/
def stripNameMsg : JVal → JVal
  | .obj d => if hasKey d "name" then .obj (dictPop d "name") else .obj d
  | x => x

/-- `RemoveNamePlugin.async_pre_call_hook`.  Every operation of the body
(`get`, `isinstance`, `in`, `pop` with default) is total on these values,
so the `except` handler is dead and the hook is a total function. -/
def removeNameHook (data : Payload) : Payload :=
  match dictGet data "messages" with
  | some (.arr messages) =>
      dictSet data "messages" (.arr (messages.map stripNameMsg))
  | _ => data

/-- Does a message carry the `name` field? -/
def hasName : JVal → Bool
  | .obj d => hasKey d "name"
  | _ => false

/-- Read a field of a message record (`None` on a non-record). -/
def getField (m : JVal) (k : String) : Option JVal :=
  match m with
  | .obj d => dictGet d k
  | _ => none

/-- Per-message contract of the remove-name hook: the result carries no
`name` field; an entry that had no `name` field (in particular any
non-record entry) is unchanged; role and content are unaltered. -/
def stripRel (m m' : JVal) : Prop :=
  hasName m' = false ∧
  (hasName m = false → m' = m) ∧
  getField m' "role" = getField m "role" ∧
  getField m' "content" = getField m "content"

/-! ## Spec-side description of the merge

`specCombineMessages` is written from the spec's words (§4.2 steps 4–5 and
§8 "Merge correctness"), to be compared with the hook translated from the
source: assign the newline-join of all system contents to the first system
message (its other fields unchanged, its position kept), drop every other
system message, and keep every non-system message in relative order. -/

/-- Is this entry a record (Python dict)? -/
def isObj : JVal → Bool
  | .obj _ => true
  | _ => false

/-- Does this record's `content` read as a string under the source's
`msg.get("content", "")` (present string, or absent)? -/
def contentOk : JVal → Bool
  | .obj d =>
      match (dictGet d "content").getD (.str "") with
      | .str _ => true
      | _ => false
  | _ => false

/-- The string `msg.get("content", "")` reads from a record (defaulting to
`""` when the field is absent or the entry is not a string-content record). -/
def contentOf : JVal → String
  | .obj d =>
      match (dictGet d "content").getD (.str "") with
      | .str s => s
      | _ => ""
  | _ => ""

/-- Spec §4.2 step 4: the newline-join `c1 + "\n" + … + "\n" + cN` of the
system messages' contents in original order. -/
def specJoined (msgs : List JVal) : String :=
  pyJoin "\n" ((msgs.filter isSystemMsg).map contentOf)

/-- Assign `joined` as the `content` of a record, other fields unchanged. -/
def setMsgContent (joined : String) : JVal → JVal
  | .obj d => .obj (dictSet d "content" (.str joined))
  | x => x

/-- Walk the messages: before the first system message keep everything;
at the first system message assign the joined content in place; afterwards
drop system messages and keep the rest.  The flag records whether the first
system message has been passed. -/
def specMergeAux (joined : String) : Bool → List JVal → List JVal
  | _, [] => []
  | false, m :: rest =>
      if isSystemMsg m then setMsgContent joined m :: specMergeAux joined true rest
      else m :: specMergeAux joined false rest
  | true, m :: rest =>
      if isSystemMsg m then specMergeAux joined true rest
      else m :: specMergeAux joined true rest

/-- The merged message list as the spec words it (§4.2 steps 4–5). -/
def specCombineMessages (msgs : List JVal) : List JVal :=
  specMergeAux (specJoined msgs) false msgs

/-! ## PreAPICallLogger.log_pre_api_call

`custom_logger.py` only reads its arguments and emits log lines, so the
embedding returns the list of emitted lines.  Log values range over a type
larger than JSON: `LogVal.nonserializable` stands for a Python object that
`json.dumps` rejects with `TypeError` (a set, bytes, a custom class, …),
carrying its total `str()` rendering. -/

/-- Values reaching the logger: JSON shapes plus non-JSON-encodable
objects. -/
inductive LogVal where
  | str  : String → LogVal
  | num  : Int → LogVal
  | bool : Bool → LogVal
  | null : LogVal
  | arr  : List LogVal → LogVal
  | obj  : List (String × LogVal) → LogVal
  | nonserializable : String → LogVal
deriving Repr

mutual

/-- Is every node JSON-encodable (the condition under which `json.dumps`
succeeds)? -/
def serializableVal : LogVal → Bool
  | .nonserializable _ => false
  | .arr xs => serializableList xs
  | .obj kvs => serializableObj kvs
  | _ => true

def serializableList : List LogVal → Bool
  | [] => true
  | x :: xs => serializableVal x && serializableList xs

def serializableObj : List (String × LogVal) → Bool
  | [] => true
  | (_, v) :: kvs => serializableVal v && serializableObj kvs

end

mutual

/-- A total textual rendering of a log value.  The exact pretty-printing of
`json.dumps(…, indent=2)` and of Python's `str()` is abstracted; what the
claims depend on is which of the two paths runs and that both renderings
are total. -/
def renderVal : LogVal → String
  | .str s => "\"" ++ s ++ "\""
  | .num n => toString n
  | .bool true => "true"
  | .bool false => "false"
  | .null => "null"
  | .arr xs => "[" ++ renderList xs ++ "]"
  | .obj kvs => "\x7b" ++ renderObj kvs ++ "\x7d"
  | .nonserializable r => r

def renderList : List LogVal → String
  | [] => ""
  | [x] => renderVal x
  | x :: xs => renderVal x ++ ", " ++ renderList xs

def renderObj : List (String × LogVal) → String
  | [] => ""
  | [(k, v)] => "\"" ++ k ++ "\": " ++ renderVal v
  | (k, v) :: kvs => "\"" ++ k ++ "\": " ++ renderVal v ++ ", " ++ renderObj kvs

end

/-- `json.dumps(messages, indent=2)`: a JSON rendering when every node is
encodable, `TypeError` (modelled `.error ()`) otherwise. -/
def jsonDumps (v : LogVal) : Except Unit String :=
  if serializableVal v then .ok (renderVal v) else .error ()

/-- `PreAPICallLogger.log_pre_api_call`, as the list of lines handed to
`logger.info`: the pre-call header, then either the serialized messages or
— when `json.dumps` raises `TypeError` — the raw fallback rendering.  The
function never touches a payload: it is read-only by construction. -/
def logPreApiCall (model : String) (messages : LogVal) : List String :=
  ("Pre-API Call for model: " ++ model) ::
  (match jsonDumps messages with
   | .ok pretty => ["Messages: " ++ pretty]
   | .error _ => ["Messages (could not serialize to JSON): " ++ renderVal messages])

/-! ## Dictionary lemmas -/

theorem dictGet_cons (k' : String) (v : JVal) (rest : Payload) (k : String) :
    dictGet ((k', v) :: rest) k = if k' = k then some v else dictGet rest k := rfl

theorem dictGet_eq_none_iff (d : Payload) (k : String) :
    dictGet d k = none ↔ d.any (fun p => p.1 = k) = false := by
  induction d with
  | nil => simp [dictGet]
  | cons p rest ih =>
      obtain ⟨k', v⟩ := p
      by_cases h : k' = k <;> simp [dictGet_cons, h, ih]

theorem dictGet_append_of_none (d e : Payload) (k : String)
    (h : dictGet d k = none) : dictGet (d ++ e) k = dictGet e k := by
  induction d with
  | nil => simp
  | cons p rest ih =>
      obtain ⟨k', v⟩ := p
      by_cases hk : k' = k
      · simp [dictGet_cons, hk] at h
      · simp only [List.cons_append, dictGet_cons, if_neg hk] at h ⊢
        exact ih h

theorem dictGet_map_set_self (k : String) (v : JVal) :
    ∀ d : Payload, d.any (fun p => p.1 = k) = true →
      dictGet (d.map (fun p => if p.1 = k then (k, v) else p)) k = some v := by
  intro d
  induction d with
  | nil => simp
  | cons p rest ih =>
      obtain ⟨k', w⟩ := p
      by_cases hk : k' = k
      · intro _
        simp [hk, dictGet_cons]
      · intro h
        simp [hk] at h
        simp only [List.map_cons, if_neg (by simpa using hk), dictGet_cons]
        exact ih (by simpa using h)

theorem dictGet_dictSet_self (d : Payload) (k : String) (v : JVal) :
    dictGet (dictSet d k v) k = some v := by
  unfold dictSet
  by_cases h : d.any (fun p => p.1 = k) = true
  · rw [if_pos h]
    exact dictGet_map_set_self k v d h
  · rw [if_neg h]
    have hnone : dictGet d k = none := by
      rw [dictGet_eq_none_iff]
      simp only [Bool.not_eq_true] at h
      exact h
    rw [dictGet_append_of_none _ _ _ hnone]
    simp [dictGet_cons]

theorem dictGet_map_set_ne (d : Payload) (k k' : String) (v : JVal)
    (h : k' ≠ k) :
    dictGet (d.map (fun p => if p.1 = k then (k, v) else p)) k'
      = dictGet d k' := by
  induction d with
  | nil => rfl
  | cons p rest ih =>
      obtain ⟨k1, w⟩ := p
      by_cases hk : k1 = k
      · have hkk' : ¬ k = k' := fun hc => h hc.symm
        have hk1k' : ¬ k1 = k' := by rw [hk]; exact hkk'
        simp only [List.map_cons, if_pos (by simpa using hk), dictGet_cons]
        rw [if_neg hkk', if_neg hk1k']
        exact ih
  -- the head keeps its key when it is not `k`
      · simp only [List.map_cons, if_neg (by simpa using hk), dictGet_cons]
        by_cases hk' : k1 = k'
        · rw [if_pos hk', if_pos hk']
        · rw [if_neg hk', if_neg hk']
          exact ih

theorem dictGet_append_single_ne (d : Payload) (k k' : String) (v : JVal)
    (h : k' ≠ k) : dictGet (d ++ [(k, v)]) k' = dictGet d k' := by
  induction d with
  | nil =>
      have hkk' : ¬ k = k' := fun hc => h hc.symm
      simp [dictGet_cons, hkk', dictGet]
  | cons p rest ih =>
      obtain ⟨k1, w⟩ := p
      by_cases hk' : k1 = k'
      · simp [dictGet_cons, hk']
      · simp only [List.cons_append, dictGet_cons, if_neg hk']
        exact ih

theorem dictGet_dictSet_ne (d : Payload) (k k' : String) (v : JVal)
    (h : k' ≠ k) : dictGet (dictSet d k v) k' = dictGet d k' := by
  unfold dictSet
  split
  · exact dictGet_map_set_ne d k k' v h
  · exact dictGet_append_single_ne d k k' v h

theorem dictSet_dictSet (d : Payload) (k : String) (v w : JVal) :
    dictSet (dictSet d k v) k w = dictSet d k w := by
  unfold dictSet
  by_cases h : d.any (fun p => p.1 = k) = true
  · rw [if_pos h]
    have hany : (d.map (fun p => if p.1 = k then (k, v) else p)).any
        (fun p => p.1 = k) = true := by
      rcases List.any_eq_true.mp h with ⟨p, hp, hpk⟩
      refine List.any_eq_true.mpr ⟨(k, v), List.mem_map.mpr ⟨p, hp, ?_⟩, by simp⟩
      exact if_pos (of_decide_eq_true hpk)
    rw [if_pos hany, if_pos h, List.map_map]
    congr 1
    funext p
    by_cases hk : p.1 = k <;> simp [Function.comp, hk]
  · rw [if_neg h, if_neg h]
    have hany : ((d ++ [(k, v)]).any (fun p => p.1 = k)) = true := by simp
    rw [if_pos hany, List.map_append]
    have hd : d.map (fun p => if p.1 = k then (k, w) else p) = d := by
      conv_rhs => rw [← List.map_id d]
      apply List.map_congr_left
      intro p hp
      have hpk : ¬ (p.1 = k) := by
        intro hc
        exact h (List.any_eq_true.mpr ⟨p, hp, by simpa using hc⟩)
      simp [hpk]
    rw [hd]
    simp

/-! ## Characterizations of the combine hook's steps -/

theorem isObj_of_isSystemMsg {m : JVal} (h : isSystemMsg m = true) :
    isObj m = true := by
  cases m <;> simp_all [isSystemMsg, isObj]

theorem collectSystem_eq_ok (msgs : List JVal)
    (h : ∀ m ∈ msgs, isObj m = true) :
    collectSystem msgs = .ok (msgs.filter isSystemMsg) := by
  induction msgs with
  | nil => rfl
  | cons m rest ih =>
      have hm := h m (List.mem_cons_self m rest)
      cases m with
      | obj d =>
          have hrest := ih (fun x hx => h x (List.mem_cons_of_mem _ hx))
          rw [collectSystem, hrest, List.filter_cons]
          by_cases hrole : dictGet d "role" = some (.str "system") <;>
            simp [Except.map, isSystemMsg, hrole]
      | str s => simp [isObj] at hm
      | num n => simp [isObj] at hm
      | bool b => simp [isObj] at hm
      | null => simp [isObj] at hm
      | arr xs => simp [isObj] at hm

theorem collectSystem_ok_inv (msgs sys : List JVal)
    (h : collectSystem msgs = .ok sys) :
    (∀ m ∈ msgs, isObj m = true) ∧ sys = msgs.filter isSystemMsg := by
  induction msgs generalizing sys with
  | nil =>
      refine ⟨by simp, ?_⟩
      simpa [collectSystem] using h.symm
  | cons m rest ih =>
      cases m with
      | obj d =>
          rw [collectSystem] at h
          cases hrest : collectSystem rest with
          | error e => rw [hrest] at h; simp [Except.map] at h
          | ok r =>
              rw [hrest] at h
              simp only [Except.map, Except.ok.injEq] at h
              obtain ⟨hobj, hr⟩ := ih r hrest
              constructor
              · intro x hx
                rcases List.mem_cons.mp hx with hhd | htl
                · subst hhd; rfl
                · exact hobj x htl
              · rw [← h, hr, List.filter_cons]
                by_cases hrole : dictGet d "role" = some (.str "system") <;>
                  simp [isSystemMsg, hrole]
      | str s => simp [collectSystem] at h
      | num n => simp [collectSystem] at h
      | bool b => simp [collectSystem] at h
      | null => simp [collectSystem] at h
      | arr xs => simp [collectSystem] at h

theorem collectSystem_eq_error (msgs : List JVal)
    (h : ∃ m ∈ msgs, isObj m = false) :
    collectSystem msgs = .error () := by
  cases hcs : collectSystem msgs with
  | error e => cases e; rfl
  | ok sys =>
      obtain ⟨m, hm, hobj⟩ := h
      have := (collectSystem_ok_inv msgs sys hcs).1 m hm
      rw [hobj] at this
      cases this

theorem getContents_eq_ok (l : List JVal)
    (hobj : ∀ m ∈ l, isObj m = true)
    (hok : ∀ m ∈ l, contentOk m = true) :
    getContents l = .ok (l.map contentOf) := by
  induction l with
  | nil => rfl
  | cons m rest ih =>
      have hm := hobj m (List.mem_cons_self m rest)
      cases m with
      | obj d =>
          have hco := hok _ (List.mem_cons_self _ rest)
          have hrest := ih (fun x hx => hobj x (List.mem_cons_of_mem _ hx))
            (fun x hx => hok x (List.mem_cons_of_mem _ hx))
          rw [getContents, hrest]
          cases hcd : (dictGet d "content").getD (.str "") with
          | str s => simp [Except.map, contentOf, hcd]
          | num n => simp [contentOk, hcd] at hco
          | bool b => simp [contentOk, hcd] at hco
          | null => simp [contentOk, hcd] at hco
          | arr xs => simp [contentOk, hcd] at hco
          | obj kvs => simp [contentOk, hcd] at hco
      | str s => simp [isObj] at hm
      | num n => simp [isObj] at hm
      | bool b => simp [isObj] at hm
      | null => simp [isObj] at hm
      | arr xs => simp [isObj] at hm

theorem getContents_ok_inv (l : List JVal) (cs : List String)
    (h : getContents l = .ok cs) :
    (∀ m ∈ l, contentOk m = true) ∧ cs = l.map contentOf := by
  induction l generalizing cs with
  | nil =>
      refine ⟨by simp, ?_⟩
      simpa [getContents] using h.symm
  | cons m rest ih =>
      cases m with
      | obj d =>
          rw [getContents] at h
          cases hcd : (dictGet d "content").getD (.str "") with
          | str s =>
              rw [hcd] at h
              cases hrest : getContents rest with
              | error e => rw [hrest] at h; simp [Except.map] at h
              | ok r =>
                  rw [hrest] at h
                  simp only [Except.map, Except.ok.injEq] at h
                  obtain ⟨hok, hr⟩ := ih r hrest
                  constructor
                  · intro x hx
                    rcases List.mem_cons.mp hx with hhd | htl
                    · subst hhd; simp [contentOk, hcd]
                    · exact hok x htl
                  · rw [← h, hr]
                    simp [contentOf, hcd]
          | num n => rw [hcd] at h; simp at h
          | bool b => rw [hcd] at h; simp at h
          | null => rw [hcd] at h; simp at h
          | arr xs => rw [hcd] at h; simp at h
          | obj kvs => rw [hcd] at h; simp at h
      | str s => simp [getContents] at h
      | num n => simp [getContents] at h
      | bool b => simp [getContents] at h
      | null => simp [getContents] at h
      | arr xs => simp [getContents] at h

theorem getContents_eq_error (l : List JVal)
    (h : ∃ m ∈ l, contentOk m = false) :
    getContents l = .error () := by
  cases hgc : getContents l with
  | error e => cases e; rfl
  | ok cs =>
      obtain ⟨m, hm, hbad⟩ := h
      have := (getContents_ok_inv l cs hgc).1 m hm
      rw [hbad] at this
      cases this

/-! ## Length of the newline join -/

theorem pyJoin_length (sep : String) :
    ∀ l : List String, l ≠ [] →
      (pyJoin sep l).length
        = (l.map String.length).sum + (l.length - 1) * sep.length := by
  intro l
  induction l with
  | nil => intro h; cases h rfl
  | cons s rest ih =>
      intro _
      cases rest with
      | nil => simp [pyJoin]
      | cons b rs =>
          have hlen := ih (by simp)
          rw [show pyJoin sep (s :: b :: rs) = s ++ sep ++ pyJoin sep (b :: rs)
              from rfl]
          simp only [String.length_append, hlen, List.map_cons, List.sum_cons,
            List.length_cons]
          have h1 : rs.length + 1 + 1 - 1 = rs.length + 1 := by omega
          have h2 : rs.length + 1 - 1 = rs.length := by omega
          rw [h1, h2, Nat.succ_mul]
          omega

theorem length_lt_pyJoin_newline {l : List String} {s : String}
    (hs : s ∈ l) (hl : 2 ≤ l.length) :
    s.length < (pyJoin "\n" l).length := by
  have hne : l ≠ [] := by
    intro h
    rw [h] at hl
    simp at hl
  rw [pyJoin_length "\n" l hne]
  have hsum : s.length ≤ (l.map String.length).sum :=
    List.single_le_sum (fun x _ => Nat.zero_le x) _ (List.mem_map_of_mem _ hs)
  have hsep : ("\n" : String).length = 1 := rfl
  rw [hsep]
  omega

/-! ## The merge equals its spec-side description -/

theorem setFirstSystemContent_cons_pos (joined : String) (d : Payload)
    (rest : List JVal) (h : isSystemMsg (.obj d) = true) :
    setFirstSystemContent joined (.obj d :: rest)
      = .obj (dictSet d "content" (.str joined)) :: rest := by
  have hrole : dictGet d "role" = some (.str "system") := by
    simpa [isSystemMsg] using h
  simp [setFirstSystemContent, hrole]

theorem setFirstSystemContent_cons_neg (joined : String) (m : JVal)
    (rest : List JVal) (h : isSystemMsg m = false) :
    setFirstSystemContent joined (m :: rest)
      = m :: setFirstSystemContent joined rest := by
  cases m with
  | obj d =>
      have hrole : ¬ dictGet d "role" = some (.str "system") := by
        simpa [isSystemMsg] using h
      simp [setFirstSystemContent, hrole]
  | str s => rfl
  | num n => rfl
  | bool b => rfl
  | null => rfl
  | arr xs => rfl

theorem contentOf_set (d : Payload) (j : String) :
    contentOf (.obj (dictSet d "content" (.str j))) = j := by
  simp [contentOf, dictGet_dictSet_self]

theorem isSystemMsg_setMsgContent (joined : String) (m : JVal) :
    isSystemMsg (setMsgContent joined m) = isSystemMsg m := by
  cases m with
  | obj d =>
      simp [setMsgContent, isSystemMsg,
        dictGet_dictSet_ne d "content" "role" _ (by decide)]
  | str s => rfl
  | num n => rfl
  | bool b => rfl
  | null => rfl
  | arr xs => rfl

/-- After the first system message has been passed, removing the entries
that belong to `tail` (all of them system messages, and every system entry
of `rest` among them) is dropping exactly the system messages. -/
theorem filter_tail_post (joined : String) (tail : List JVal) :
    ∀ rest : List JVal,
      (∀ m ∈ rest, isSystemMsg m = true → m ∈ tail) →
      (∀ t ∈ tail, isSystemMsg t = true) →
      rest.filter (fun m => decide (¬ m ∈ tail))
        = specMergeAux joined true rest := by
  intro rest
  induction rest with
  | nil => intro _ _; rfl
  | cons m rs ih =>
      intro hsub hsys
      have hrs := ih (fun x hx => hsub x (List.mem_cons_of_mem _ hx)) hsys
      by_cases hm : isSystemMsg m = true
      · have hmem : m ∈ tail := hsub m (List.mem_cons_self m rs) hm
        rw [List.filter_cons]
        simp only [hmem, not_true_eq_false, decide_False]
        rw [specMergeAux, if_pos hm, hrs]
        simp
      · have hmem : m ∉ tail := fun hc => hm (hsys m hc)
        rw [List.filter_cons]
        simp only [hmem, not_false_eq_true, decide_True]
        rw [specMergeAux, if_neg hm, hrs]
        simp

/-- The source's "mutate the first system message, then filter out the
later system messages" equals the spec's single walk, provided the joined
content is strictly longer than every later system content (which rules
the updated first message out of the removal list). -/
theorem merge_filter_eq (joined : String) :
    ∀ msgs : List JVal,
      (∀ t ∈ (msgs.filter isSystemMsg).tail,
        (contentOf t).length < joined.length) →
      (setFirstSystemContent joined msgs).filter
          (fun m => decide (¬ m ∈ (msgs.filter isSystemMsg).tail))
        = specMergeAux joined false msgs := by
  intro msgs
  induction msgs with
  | nil => intro _; rfl
  | cons m rest ih =>
      intro hlen
      by_cases hm : isSystemMsg m = true
      · -- `m` is the first system message
        obtain ⟨d, rfl⟩ : ∃ d, m = .obj d := by
          cases m <;> simp [isSystemMsg] at hm ⊢
        have htail : ((JVal.obj d :: rest).filter isSystemMsg).tail
            = rest.filter isSystemMsg := by
          rw [List.filter_cons, if_pos (by simpa using hm)]
          rfl
        rw [setFirstSystemContent_cons_pos joined d rest hm, htail,
          List.filter_cons]
        have hkeep : JVal.obj (dictSet d "content" (.str joined))
            ∉ rest.filter isSystemMsg := by
          intro hc
          have hlt := hlen _ (by rwa [htail])
          rw [contentOf_set] at hlt
          exact Nat.lt_irrefl _ hlt
        simp only [hkeep, not_false_eq_true, decide_True]
        rw [specMergeAux, if_pos hm]
        have hpost := filter_tail_post joined (rest.filter isSystemMsg) rest
          (fun x hx hsx => List.mem_filter.mpr ⟨hx, hsx⟩)
          (fun t ht => (List.mem_filter.mp ht).2)
        rw [hpost]
        rfl
      · -- not yet at the first system message
        have hm' : isSystemMsg m = false := by
          cases hb : isSystemMsg m
          · rfl
          · exact absurd hb hm
        have htail : ((m :: rest).filter isSystemMsg)
            = rest.filter isSystemMsg := by
          rw [List.filter_cons, if_neg (by simp [hm'])]
        rw [setFirstSystemContent_cons_neg joined m rest hm', htail,
          List.filter_cons]
        have hkeep : m ∉ (rest.filter isSystemMsg).tail := by
          intro hc
          have : m ∈ rest.filter isSystemMsg := List.tail_subset _ hc
          exact hm ((List.mem_filter.mp this).2)
        simp only [hkeep, not_false_eq_true, decide_True]
        rw [specMergeAux, if_neg hm]
        rw [ih (by rwa [htail] at hlen)]
        simp

/-! ## Shape facts about the spec-side merge -/

theorem specMergeAux_true_countP (joined : String) :
    ∀ rest : List JVal,
      (specMergeAux joined true rest).countP isSystemMsg = 0 := by
  intro rest
  induction rest with
  | nil => rfl
  | cons m rs ih =>
      by_cases hm : isSystemMsg m = true
      · rw [specMergeAux, if_pos hm]; exact ih
      · rw [specMergeAux, if_neg hm, List.countP_cons_of_neg _ _ hm, ih]

theorem specMergeAux_false_countP (joined : String) :
    ∀ msgs : List JVal, 1 ≤ msgs.countP isSystemMsg →
      (specMergeAux joined false msgs).countP isSystemMsg = 1 := by
  intro msgs
  induction msgs with
  | nil => intro h; simp at h
  | cons m rest ih =>
      intro h
      by_cases hm : isSystemMsg m = true
      · rw [specMergeAux, if_pos hm,
          List.countP_cons_of_pos _ _ (by rw [isSystemMsg_setMsgContent]; exact hm),
          specMergeAux_true_countP]
      · rw [List.countP_cons_of_neg _ _ hm] at h
        rw [specMergeAux, if_neg hm, List.countP_cons_of_neg _ _ hm]
        exact ih h

theorem specMergeAux_nonsystem_filter (joined : String) :
    ∀ (msgs : List JVal) (b : Bool),
      (specMergeAux joined b msgs).filter (fun m => !isSystemMsg m)
        = msgs.filter (fun m => !isSystemMsg m) := by
  intro msgs
  induction msgs with
  | nil => intro b; cases b <;> rfl
  | cons m rest ih =>
      intro b
      by_cases hm : isSystemMsg m = true
      · cases b
        · rw [specMergeAux, if_pos hm, List.filter_cons, List.filter_cons]
          simp only [hm, isSystemMsg_setMsgContent, Bool.not_true]
          exact ih true
        · rw [specMergeAux, if_pos hm, List.filter_cons]
          simp only [hm, Bool.not_true]
          exact ih true
      · have hm' : isSystemMsg m = false := by
          cases hb : isSystemMsg m
          · rfl
          · exact absurd hb hm
        cases b
        · rw [specMergeAux, if_neg hm, List.filter_cons, List.filter_cons]
          simp only [hm', Bool.not_false]
          rw [ih false]
        · rw [specMergeAux, if_neg hm, List.filter_cons, List.filter_cons]
          simp only [hm', Bool.not_false]
          rw [ih true]

theorem specMergeAux_all_obj (joined : String) :
    ∀ (msgs : List JVal) (b : Bool), (∀ m ∈ msgs, isObj m = true) →
      ∀ m ∈ specMergeAux joined b msgs, isObj m = true := by
  intro msgs
  induction msgs with
  | nil => intro b _ m hm; cases b <;> simp [specMergeAux] at hm
  | cons x rest ih =>
      intro b h m hm
      have hx := h x (List.mem_cons_self x rest)
      have hrest := fun y hy => h y (List.mem_cons_of_mem _ hy)
      by_cases hs : isSystemMsg x = true
      · cases b
        · rw [specMergeAux, if_pos hs] at hm
          rcases List.mem_cons.mp hm with hhd | htl
          · subst hhd
            cases x with
            | obj d => simp [setMsgContent, isObj]
            | str s => simp [isObj] at hx
            | num n => simp [isObj] at hx
            | bool b' => simp [isObj] at hx
            | null => simp [isObj] at hx
            | arr xs => simp [isObj] at hx
          · exact ih true hrest m htl
        · rw [specMergeAux, if_pos hs] at hm
          exact ih true hrest m hm
      · cases b
        · rw [specMergeAux, if_neg hs] at hm
          rcases List.mem_cons.mp hm with hhd | htl
          · subst hhd; exact hx
          · exact ih false hrest m htl
        · rw [specMergeAux, if_neg hs] at hm
          rcases List.mem_cons.mp hm with hhd | htl
          · subst hhd; exact hx
          · exact ih true hrest m htl

/-! ## The hook on the merge path and its overall shape -/

theorem combineHookCore_merge (data : Payload) (msgs : List JVal)
    (hm : dictGet data "messages" = some (.arr msgs))
    (hobj : ∀ m ∈ msgs, isObj m = true)
    (hok : ∀ m ∈ msgs, isSystemMsg m = true → contentOk m = true)
    (hcount : 1 < msgs.countP isSystemMsg) :
    combineHookCore data
      = .ok (dictSet data "messages" (.arr (specCombineMessages msgs))) := by
  have hsys : collectSystem msgs = .ok (msgs.filter isSystemMsg) :=
    collectSystem_eq_ok msgs hobj
  have hlenf : 1 < (msgs.filter isSystemMsg).length := by
    rwa [← List.countP_eq_length_filter]
  have hcontents : getContents (msgs.filter isSystemMsg)
      = .ok ((msgs.filter isSystemMsg).map contentOf) :=
    getContents_eq_ok _
      (fun m hm' => isObj_of_isSystemMsg (List.mem_filter.mp hm').2)
      (fun m hm' => hok m (List.mem_filter.mp hm').1 (List.mem_filter.mp hm').2)
  have hlen : ∀ t ∈ (msgs.filter isSystemMsg).tail,
      (contentOf t).length
        < (pyJoin "\n" ((msgs.filter isSystemMsg).map contentOf)).length := by
    intro t ht
    exact length_lt_pyJoin_newline
      (List.mem_map_of_mem _ (List.tail_subset _ ht))
      (by rw [List.length_map]; omega)
  simp only [combineHookCore, hm, hsys, Except.bind, hcontents,
    bind, if_pos hlenf]
  rw [merge_filter_eq _ msgs hlen]
  rfl

theorem combineHook_shape (data : Payload) :
    combineHook data = data ∨
    ∃ msgs : List JVal,
      dictGet data "messages" = some (.arr msgs) ∧
      (∀ m ∈ msgs, isObj m = true) ∧
      1 < msgs.countP isSystemMsg ∧
      combineHook data = dictSet data "messages" (.arr (specCombineMessages msgs)) := by
  cases hm : dictGet data "messages" with
  | none => left; simp [combineHook, combineHookCore, hm]
  | some v =>
      cases v with
      | arr msgs =>
          cases hcs : collectSystem msgs with
          | error e =>
              left
              simp [combineHook, combineHookCore, hm, hcs, bind, Except.bind]
          | ok sys =>
              obtain ⟨hobj, hsys⟩ := collectSystem_ok_inv msgs sys hcs
              by_cases hlen : 1 < sys.length
              · cases hgc : getContents sys with
                | error e =>
                    left
                    simp [combineHook, combineHookCore, hm, hcs, bind,
                      Except.bind, if_pos hlen, hgc]
                | ok cs =>
                    right
                    have hcount : 1 < msgs.countP isSystemMsg := by
                      rw [List.countP_eq_length_filter, ← hsys]
                      exact hlen
                    have hok : ∀ m ∈ msgs, isSystemMsg m = true →
                        contentOk m = true := by
                      intro m hmem hsm
                      refine (getContents_ok_inv sys cs hgc).1 m ?_
                      rw [hsys]
                      exact List.mem_filter.mpr ⟨hmem, hsm⟩
                    have hcore := combineHookCore_merge data msgs hm hobj hok hcount
                    exact ⟨msgs, rfl, hobj, hcount, by simp [combineHook, hcore]⟩
              · left
                simp [combineHook, combineHookCore, hm, hcs, bind,
                  Except.bind, if_neg hlen]
      | str s => left; simp [combineHook, combineHookCore, hm]
      | num n => left; simp [combineHook, combineHookCore, hm]
      | bool b => left; simp [combineHook, combineHookCore, hm]
      | null => left; simp [combineHook, combineHookCore, hm]
      | obj kvs => left; simp [combineHook, combineHookCore, hm]

/-! ## Facts about field stripping -/

theorem dictGet_dictPop_ne (d : Payload) (k k' : String) (h : k' ≠ k) :
    dictGet (dictPop d k) k' = dictGet d k' := by
  unfold dictPop
  induction d with
  | nil => rfl
  | cons p rest ih =>
      obtain ⟨k1, v⟩ := p
      rw [List.filter_cons]
      by_cases hk : k1 = k
      · rw [if_neg (by simp [hk])]
        rw [dictGet_cons,
          if_neg (show ¬ k1 = k' by rw [hk]; exact fun hc => h hc.symm)]
        exact ih
      · rw [if_pos (by simp [hk])]
        rw [dictGet_cons, dictGet_cons]
        by_cases hk' : k1 = k'
        · rw [if_pos hk', if_pos hk']
        · rw [if_neg hk', if_neg hk']
          exact ih

theorem hasKey_dictPop (d : Payload) (k : String) :
    hasKey (dictPop d k) k = false := by
  unfold hasKey dictPop
  induction d with
  | nil => rfl
  | cons p rest ih =>
      obtain ⟨k1, v⟩ := p
      rw [List.filter_cons]
      by_cases hk : k1 = k
      · rw [if_neg (by simp [hk])]
        exact ih
      · rw [if_pos (by simp [hk]), List.any_cons]
        simp only [hk, decide_False, Bool.false_or]
        exact ih

theorem dictGet_dictPop_self (d : Payload) (k : String) :
    dictGet (dictPop d k) k = none := by
  rw [dictGet_eq_none_iff]
  exact hasKey_dictPop d k

theorem hasName_stripNameMsg (m : JVal) :
    hasName (stripNameMsg m) = false := by
  cases m with
  | obj d =>
      by_cases h : hasKey d "name" = true
      · simp [stripNameMsg, h, hasName, hasKey_dictPop]
      · have h' : hasKey d "name" = false := by
          cases hb : hasKey d "name"
          · rfl
          · exact absurd hb h
        simp [stripNameMsg, h', hasName]
  | str s => rfl
  | num n => rfl
  | bool b => rfl
  | null => rfl
  | arr xs => rfl

theorem stripNameMsg_of_hasName_eq_false {m : JVal} (h : hasName m = false) :
    stripNameMsg m = m := by
  cases m with
  | obj d => simp_all [stripNameMsg, hasName]
  | str s => rfl
  | num n => rfl
  | bool b => rfl
  | null => rfl
  | arr xs => rfl

theorem stripNameMsg_idem (m : JVal) :
    stripNameMsg (stripNameMsg m) = stripNameMsg m :=
  stripNameMsg_of_hasName_eq_false (hasName_stripNameMsg m)

theorem getField_stripNameMsg (m : JVal) (k : String) (h : k ≠ "name") :
    getField (stripNameMsg m) k = getField m k := by
  cases m with
  | obj d =>
      by_cases hn : hasKey d "name" = true
      · simp [stripNameMsg, hn, getField, dictGet_dictPop_ne d "name" k h]
      · have h' : hasKey d "name" = false := by
          cases hb : hasKey d "name"
          · rfl
          · exact absurd hb hn
        simp [stripNameMsg, h']
  | str s => rfl
  | num n => rfl
  | bool b => rfl
  | null => rfl
  | arr xs => rfl

/-- Shared no-op fact: when every reading of `messages` as a list has at
most one system message (in particular when `messages` is absent or not a
list), the combine hook returns its input. -/
theorem combineHook_eq_self (data : Payload)
    (h : ∀ msgs : List JVal, dictGet data "messages" = some (.arr msgs) →
      msgs.countP isSystemMsg ≤ 1) :
    combineHook data = data := by
  rcases combineHook_shape data with h1 | ⟨msgs, hm, _, hcount, _⟩
  · exact h1
  · have := h msgs hm
    omega

/-! ## Claim theorems -/

/-- C1: on a payload whose `messages` value is a list of records with more
than one system message (each system `content` a string, absent read as
empty), the combine hook rewrites `messages` to exactly the spec-side
merge `specCombineMessages` — the newline-join of the system contents
assigned to the first system message in place with its other fields kept,
every other system message removed — and that merged list contains exactly
one system message and keeps all non-system messages in their original
relative order. -/
theorem combine_merge_correct (data : Payload) (msgs : List JVal)
    (hm : dictGet data "messages" = some (.arr msgs))
    (hobj : ∀ m ∈ msgs, isObj m = true)
    (hok : ∀ m ∈ msgs, isSystemMsg m = true → contentOk m = true)
    (hcount : 1 < msgs.countP isSystemMsg) :
    combineHook data
        = dictSet data "messages" (.arr (specCombineMessages msgs)) ∧
    (specCombineMessages msgs).countP isSystemMsg = 1 ∧
    (specCombineMessages msgs).filter (fun m => !isSystemMsg m)
        = msgs.filter (fun m => !isSystemMsg m) := by
  refine ⟨?_, ?_, ?_⟩
  · have hcore := combineHookCore_merge data msgs hm hobj hok hcount
    simp [combineHook, hcore]
  · have : 1 ≤ msgs.countP isSystemMsg := by omega
    exact specMergeAux_false_countP _ msgs this
  · exact specMergeAux_nonsystem_filter _ msgs false

theorem combine_merge_correct_witness :
    1 < ([JVal.obj [("role", .str "system"), ("content", .str "A")],
          JVal.obj [("role", .str "user"), ("content", .str "hi")],
          JVal.obj [("role", .str "system"), ("content", .str "B")]].countP
            isSystemMsg) ∧
    combineHook
        [("model", .str "gpt-4"),
         ("messages", .arr
           [.obj [("role", .str "system"), ("content", .str "A")],
            .obj [("role", .str "user"), ("content", .str "hi")],
            .obj [("role", .str "system"), ("content", .str "B")]])]
      = dictSet
          [("model", .str "gpt-4"),
           ("messages", .arr
             [.obj [("role", .str "system"), ("content", .str "A")],
              .obj [("role", .str "user"), ("content", .str "hi")],
              .obj [("role", .str "system"), ("content", .str "B")]])]
          "messages"
          (.arr (specCombineMessages
            [.obj [("role", .str "system"), ("content", .str "A")],
             .obj [("role", .str "user"), ("content", .str "hi")],
             .obj [("role", .str "system"), ("content", .str "B")]])) :=
  ⟨by decide,
   (combine_merge_correct
      [("model", .str "gpt-4"),
       ("messages", .arr
         [.obj [("role", .str "system"), ("content", .str "A")],
          .obj [("role", .str "user"), ("content", .str "hi")],
          .obj [("role", .str "system"), ("content", .str "B")]])]
      [.obj [("role", .str "system"), ("content", .str "A")],
       .obj [("role", .str "user"), ("content", .str "hi")],
       .obj [("role", .str "system"), ("content", .str "B")]]
      rfl (by decide) (by decide) (by decide)).1⟩

/-- C2: on every input on which the combine hook's `try` body raises
(`combineHookCore` returns `.error`), the hook returns its input payload
unchanged and propagates no error — both raise sites of the body precede
any mutation of `data`, so the `except` handler's `return data` is the
pre-stage payload.  (The remove-name hook's body is total on these values,
so the claim holds for it vacuously.) -/
theorem combine_fail_open (data : Payload) (e : Unit)
    (h : combineHookCore data = .error e) : combineHook data = data := by
  simp [combineHook, h]

theorem combine_fail_open_witness :
    combineHookCore
        [("messages", .arr
          [.str "not a record",
           .obj [("role", .str "system"), ("content", .str "A")],
           .obj [("role", .str "system"), ("content", .str "B")]])]
      = .error () ∧
    combineHook
        [("messages", .arr
          [.str "not a record",
           .obj [("role", .str "system"), ("content", .str "A")],
           .obj [("role", .str "system"), ("content", .str "B")]])]
      = [("messages", .arr
          [.str "not a record",
           .obj [("role", .str "system"), ("content", .str "A")],
           .obj [("role", .str "system"), ("content", .str "B")]])] :=
  ⟨rfl, combine_fail_open _ () rfl⟩

/-- C3: when `messages` is absent or not a list, and when it is a list
carrying zero or one system message, the combine hook returns a payload
identical to its input. -/
theorem combine_noop (data : Payload)
    (h : ∀ msgs : List JVal, dictGet data "messages" = some (.arr msgs) →
      msgs.countP isSystemMsg ≤ 1) :
    combineHook data = data :=
  combineHook_eq_self data h

theorem combine_noop_witness :
    combineHook [("model", .str "gpt-4")] = [("model", .str "gpt-4")] :=
  combine_noop _ (by intro msgs hmm; simp [dictGet] at hmm)

theorem stripRel_stripNameMsg (m : JVal) : stripRel m (stripNameMsg m) :=
  ⟨hasName_stripNameMsg m,
   fun h => stripNameMsg_of_hasName_eq_false h,
   getField_stripNameMsg m "role" (by decide),
   getField_stripNameMsg m "content" (by decide)⟩

theorem forall₂_stripRel (msgs : List JVal) :
    List.Forall₂ stripRel msgs (msgs.map stripNameMsg) := by
  induction msgs with
  | nil => exact List.Forall₂.nil
  | cons m rest ih => exact List.Forall₂.cons (stripRel_stripNameMsg m) ih

/-- C4: on a payload whose `messages` value is a list, the remove-name
hook leaves a message list of the same length in which, pointwise, no
record carries the field `name`, every entry that lacked the field (or is
not a record) is unchanged, and every message's role and content — hence
also the relative order of all messages — are unaltered. -/
theorem removeName_strips (data : Payload) (msgs : List JVal)
    (hm : dictGet data "messages" = some (.arr msgs)) :
    ∃ msgs' : List JVal,
      dictGet (removeNameHook data) "messages" = some (.arr msgs') ∧
      List.Forall₂ stripRel msgs msgs' := by
  refine ⟨msgs.map stripNameMsg, ?_, forall₂_stripRel msgs⟩
  simp [removeNameHook, hm, dictGet_dictSet_self]

theorem removeName_strips_witness :
    ∃ msgs' : List JVal,
      dictGet
          (removeNameHook
            [("messages", .arr
              [.obj [("role", .str "user"), ("content", .str "hi"),
                     ("name", .str "bob")],
               .str "not a record",
               .obj [("role", .str "assistant"), ("content", .str "ok")]])])
          "messages"
        = some (.arr msgs') ∧
      List.Forall₂ stripRel
        [.obj [("role", .str "user"), ("content", .str "hi"),
               ("name", .str "bob")],
         .str "not a record",
         .obj [("role", .str "assistant"), ("content", .str "ok")]]
        msgs' :=
  removeName_strips
    [("messages", .arr
      [.obj [("role", .str "user"), ("content", .str "hi"),
             ("name", .str "bob")],
       .str "not a record",
       .obj [("role", .str "assistant"), ("content", .str "ok")]])]
    [.obj [("role", .str "user"), ("content", .str "hi"),
           ("name", .str "bob")],
     .str "not a record",
     .obj [("role", .str "assistant"), ("content", .str "ok")]]
    rfl

/-- C5: when serializing the messages for the pre-API-call log fails
(`json.dumps` raises `TypeError`, modelled as `jsonDumps` returning
`.error`), the logger emits the fallback raw rendering — the call is total
and, being a pure function of its arguments, mutates neither the messages
nor any payload. -/
theorem logger_serialization_fallback (model : String) (messages : LogVal)
    (h : jsonDumps messages = .error ()) :
    logPreApiCall model messages
      = ["Pre-API Call for model: " ++ model,
         "Messages (could not serialize to JSON): " ++ renderVal messages] := by
  simp [logPreApiCall, h]

theorem logger_serialization_fallback_witness :
    jsonDumps (.arr [.str "x", .nonserializable "<object of type set>"])
        = .error () ∧
    logPreApiCall "gpt-4"
        (.arr [.str "x", .nonserializable "<object of type set>"])
      = ["Pre-API Call for model: gpt-4",
         "Messages (could not serialize to JSON): "
           ++ renderVal (.arr [.str "x", .nonserializable "<object of type set>"])] :=
  ⟨rfl,
   logger_serialization_fallback "gpt-4"
     (.arr [.str "x", .nonserializable "<object of type set>"]) rfl⟩

/-- C6: the combine hook is idempotent — applying it twice yields the same
payload as applying it once, for every payload. -/
theorem combine_idempotent (data : Payload) :
    combineHook (combineHook data) = combineHook data := by
  rcases combineHook_shape data with h1 | ⟨msgs, hm, hobj, hcount, heq⟩
  · rw [h1]
    exact h1
  · rw [heq]
    apply combineHook_eq_self
    intro msgs' hm'
    rw [dictGet_dictSet_self] at hm'
    have hmsgs' : msgs' = specCombineMessages msgs := by
      simpa using hm'.symm
    subst hmsgs'
    have h1 : 1 ≤ msgs.countP isSystemMsg := by omega
    have := specMergeAux_false_countP (specJoined msgs) msgs h1
    simp only [specCombineMessages]
    omega

/-- C7: the remove-name hook is idempotent — re-applying it to an
already-stripped payload is a no-op. -/
theorem removeName_idempotent (data : Payload) :
    removeNameHook (removeNameHook data) = removeNameHook data := by
  cases hm : dictGet data "messages" with
  | none =>
      have h1 : removeNameHook data = data := by simp [removeNameHook, hm]
      rw [h1]
      exact h1
  | some v =>
      cases v with
      | arr msgs =>
          have h1 : removeNameHook data
              = dictSet data "messages" (.arr (msgs.map stripNameMsg)) := by
            simp [removeNameHook, hm]
          rw [h1]
          have hm2 : dictGet (dictSet data "messages"
                (.arr (msgs.map stripNameMsg))) "messages"
              = some (.arr (msgs.map stripNameMsg)) :=
            dictGet_dictSet_self _ _ _
          have hmap : (msgs.map stripNameMsg).map stripNameMsg
              = msgs.map stripNameMsg := by
            rw [List.map_map]
            exact List.map_congr_left (fun m _ => stripNameMsg_idem m)
          simp [removeNameHook, hm2, hmap, dictSet_dictSet]
      | str s =>
          have h1 : removeNameHook data = data := by simp [removeNameHook, hm]
          rw [h1]
          exact h1
      | num n =>
          have h1 : removeNameHook data = data := by simp [removeNameHook, hm]
          rw [h1]
          exact h1
      | bool b =>
          have h1 : removeNameHook data = data := by simp [removeNameHook, hm]
          rw [h1]
          exact h1
      | null =>
          have h1 : removeNameHook data = data := by simp [removeNameHook, hm]
          rw [h1]
          exact h1
      | obj kvs =>
          have h1 : removeNameHook data = data := by simp [removeNameHook, hm]
          rw [h1]
          exact h1

/-- C8: on `messages = [{role: "system", content: "A"}, {role: "system"}]`
(second system message with no content field) the combine hook produces
`[{role: "system", content: "A\n"}]` — the missing content contributes an
empty line, is not skipped, and raises no error. -/
theorem combine_missing_content_example :
    combineHook
        [("messages", .arr
          [.obj [("role", .str "system"), ("content", .str "A")],
           .obj [("role", .str "system")]])]
      = [("messages", .arr
          [.obj [("role", .str "system"), ("content", .str "A\n")]])] := by
  decide

/-- C9: both hooks leave every top-level payload key other than
`"messages"` (model name, temperature, any other provider parameter)
mapped to an unchanged value. -/
theorem hooks_preserve_other_keys (data : Payload) (k : String)
    (h : k ≠ "messages") :
    dictGet (combineHook data) k = dictGet data k ∧
    dictGet (removeNameHook data) k = dictGet data k := by
  constructor
  · rcases combineHook_shape data with h1 | ⟨msgs, hm, _, _, heq⟩
    · rw [h1]
    · rw [heq, dictGet_dictSet_ne _ _ _ _ h]
  · cases hm : dictGet data "messages" with
    | none => simp [removeNameHook, hm]
    | some v =>
        cases v with
        | arr msgs => simp [removeNameHook, hm, dictGet_dictSet_ne _ _ _ _ h]
        | str s => simp [removeNameHook, hm]
        | num n => simp [removeNameHook, hm]
        | bool b => simp [removeNameHook, hm]
        | null => simp [removeNameHook, hm]
        | obj kvs => simp [removeNameHook, hm]

theorem hooks_preserve_other_keys_witness :
    dictGet (combineHook
        [("model", .str "gpt-4"), ("temperature", .num 1),
         ("messages", .arr
           [.obj [("role", .str "system"), ("content", .str "A")],
            .obj [("role", .str "system"), ("content", .str "B"),
                  ("name", .str "bob")]])]) "model"
      = dictGet
        [("model", .str "gpt-4"), ("temperature", .num 1),
         ("messages", .arr
           [.obj [("role", .str "system"), ("content", .str "A")],
            .obj [("role", .str "system"), ("content", .str "B"),
                  ("name", .str "bob")]])] "model" ∧
    dictGet (removeNameHook
        [("model", .str "gpt-4"), ("temperature", .num 1),
         ("messages", .arr
           [.obj [("role", .str "system"), ("content", .str "A")],
            .obj [("role", .str "system"), ("content", .str "B"),
                  ("name", .str "bob")]])]) "model"
      = dictGet
        [("model", .str "gpt-4"), ("temperature", .num 1),
         ("messages", .arr
           [.obj [("role", .str "system"), ("content", .str "A")],
            .obj [("role", .str "system"), ("content", .str "B"),
                  ("name", .str "bob")]])] "model" :=
  hooks_preserve_other_keys
    [("model", .str "gpt-4"), ("temperature", .num 1),
     ("messages", .arr
       [.obj [("role", .str "system"), ("content", .str "A")],
        .obj [("role", .str "system"), ("content", .str "B"),
              ("name", .str "bob")]])] "model" (by decide)

/-- C10: on a payload whose `messages` list has more than one system
message, if some entry is not a record, or some system message's `content`
is present but not a string (structured content, explicit null), the
combine hook performs no merge and no removal and returns the payload
completely unchanged. -/
theorem combine_invalid_unchanged (data : Payload) (msgs : List JVal)
    (hm : dictGet data "messages" = some (.arr msgs))
    (hcount : 1 < msgs.countP isSystemMsg)
    (hbad : (∃ m ∈ msgs, isObj m = false) ∨
      (∃ m ∈ msgs, isSystemMsg m = true ∧ contentOk m = false)) :
    combineHook data = data := by
  rcases hbad with hno | ⟨m, hmem, hsm, hco⟩
  · have hcs := collectSystem_eq_error msgs hno
    simp [combineHook, combineHookCore, hm, hcs, bind, Except.bind]
  · cases hcs : collectSystem msgs with
    | error e =>
        cases e
        simp [combineHook, combineHookCore, hm, hcs, bind, Except.bind]
    | ok sys =>
        obtain ⟨hobj, hsys⟩ := collectSystem_ok_inv msgs sys hcs
        have hmem' : m ∈ sys := by
          rw [hsys]
          exact List.mem_filter.mpr ⟨hmem, hsm⟩
        have hgc : getContents sys = .error () :=
          getContents_eq_error sys ⟨m, hmem', hco⟩
        have hlen : 1 < sys.length := by
          rw [hsys, ← List.countP_eq_length_filter]
          exact hcount
        simp [combineHook, combineHookCore, hm, hcs, bind, Except.bind,
          if_pos hlen, hgc]

theorem combine_invalid_unchanged_witness :
    combineHook
        [("messages", .arr
          [.obj [("role", .str "system"), ("content", .null)],
           .obj [("role", .str "system"), ("content", .str "B")]])]
      = [("messages", .arr
          [.obj [("role", .str "system"), ("content", .null)],
           .obj [("role", .str "system"), ("content", .str "B")]])] :=
  combine_invalid_unchanged
    [("messages", .arr
      [.obj [("role", .str "system"), ("content", .null)],
       .obj [("role", .str "system"), ("content", .str "B")]])]
    [.obj [("role", .str "system"), ("content", .null)],
     .obj [("role", .str "system"), ("content", .str "B")]]
    rfl (by decide) (Or.inr (by decide))

end LitellmPlugins
